import Mathlib

/-!
Verification of the authd identity cache (`internal/users/cache/update.go`)
and broker manager (`internal/brokers/manager.go`).

Buckets of the bbolt store are modelled as association lists from keys
(UIDs/GIDs as `Nat`, names as `String`) to the JSON-decoded records; an
absent key is `none`, matching `getFromBucket` returning the zero value
together with `NoDataFoundError`. A transaction either commits (`Except.ok`
with the new store state) or aborts leaving the state untouched
(`Except.error`), matching `bbolt.Update` rollback semantics.
-/

namespace Authd

/-- Lookup in an association-list bucket (`getFromBucket`): `none` models
`NoDataFoundError`, in which case Go callers continue with the zero value. -/
def lookupA {K V : Type} [DecidableEq K] : List (K × V) → K → Option V
  | [], _ => none
  | (k, v) :: rest, key => if k = key then some v else lookupA rest key

/-- Overwrite-or-insert in an association-list bucket (`updateBucket` /
`bucket.Put`). -/
def insertA {K V : Type} [DecidableEq K] : List (K × V) → K → V → List (K × V)
  | [], key, v => [(key, v)]
  | (k, w) :: rest, key, v =>
      if k = key then (key, v) :: rest else (k, w) :: insertA rest key v

/-- Delete a key from an association-list bucket (`delete(map, key)`). -/
def eraseA {K V : Type} [DecidableEq K] : List (K × V) → K → List (K × V)
  | [], _ => []
  | (k, w) :: rest, key => if k = key then eraseA rest key else (k, w) :: eraseA rest key

instance {ε α : Type} [DecidableEq ε] [DecidableEq α] : DecidableEq (Except ε α) :=
  fun x y =>
    match x, y with
    | .error a, .error b =>
        if h : a = b then .isTrue (h ▸ rfl)
        else .isFalse (fun hh => h (by injection hh))
    | .ok a, .ok b =>
        if h : a = b then .isTrue (h ▸ rfl)
        else .isFalse (fun hh => h (by injection hh))
    | .error _, .ok _ => .isFalse (fun hh => Except.noConfusion hh)
    | .ok _, .error _ => .isFalse (fun hh => Except.noConfusion hh)

/-- `UserDB`: the user record supplied by callers of `UpdateUserEntry`
(spec §3, field-for-field). -/
structure UserDB where
  name : String
  uid : Nat
  gid : Nat
  gecos : String
  dir : String
  shell : String
  lastPwdChange : Int
  maxPwdAge : Int
  pwdWarnPeriod : Int
  pwdInactivity : Int
  minPwdAge : Int
  expirationDate : Int
deriving DecidableEq, Repr

/-- `userDB`: the stored user record, `UserDB` plus `LastLogin`
(timestamps as `Nat`). -/
structure UserRec extends UserDB where
  lastLogin : Nat
deriving DecidableEq, Repr

/-- The zero value of `userDB`, what `getFromBucket` yields on
`NoDataFoundError`. -/
def zeroUserRec : UserRec :=
  { name := "", uid := 0, gid := 0, gecos := "", dir := "", shell := ""
    lastPwdChange := 0, maxPwdAge := 0, pwdWarnPeriod := 0, pwdInactivity := 0
    minPwdAge := 0, expirationDate := 0, lastLogin := 0 }

/-- `GroupDB` / `groupDB`: a group record `{name, gid}` (spec §3). -/
structure GroupDB where
  name : String
  gid : Nat
deriving DecidableEq, Repr

/-- `userToGroupsDB`: forward membership edge, ordered GID sequence. -/
structure UserToGroupsDB where
  uid : Nat
  gids : List Nat
deriving DecidableEq, Repr

/-- `groupToUsersDB`: reverse membership edge, UID list with set semantics. -/
structure GroupToUsersDB where
  gid : Nat
  uids : List Nat
deriving DecidableEq, Repr

/-- The seven-bucket store restricted to the buckets `UpdateUserEntry`
touches, plus `user_to_broker` for `UpdateBrokerForUser`. -/
structure Cache where
  userByID : List (Nat × UserRec)
  userByName : List (String × UserRec)
  groupByID : List (Nat × GroupDB)
  groupByName : List (String × GroupDB)
  userToGroups : List (Nat × UserToGroupsDB)
  groupToUsers : List (Nat × GroupToUsersDB)
  userToBroker : List (Nat × String)
deriving DecidableEq, Repr

/-- The freshly created store: every bucket empty. -/
def emptyCache : Cache :=
  { userByID := [], userByName := [], groupByID := [], groupByName := []
    userToGroups := [], groupToUsers := [], userToBroker := [] }

/-- The two abort causes of `UpdateUserEntry` that arise in the pure model:
both are the spec's ConflictingIdentity (invariant 3). Substrate I/O
failures have no pure counterpart. -/
inductive CacheError where
  /-- "UID already in use by a different user" -/
  | conflictingUserUID : CacheError
  /-- "GID for group %q already in use by a different group" -/
  | conflictingGroupGID : CacheError
deriving DecidableEq, Repr

/-- `updateUser`: conflict check on `user_by_id`, home-directory
stickiness, then write-through to both user buckets. -/
def updateUser (st : Cache) (userContent : UserRec) : Except CacheError Cache :=
  let existingUser := (lookupA st.userByID userContent.uid).getD zeroUserRec
  if existingUser.name ≠ "" ∧ existingUser.name ≠ userContent.name then
    .error .conflictingUserUID
  else
    let userContent :=
      if existingUser.dir ≠ "" ∧ existingUser.dir ≠ userContent.dir then
        { userContent with dir := existingUser.dir }
      else userContent
    .ok { st with
            userByID := insertA st.userByID userContent.uid userContent
            userByName := insertA st.userByName userContent.name userContent }

/-- `updateGroups`: per group, conflict check on `group_by_id`, then
write-through of `{name, gid}` to both group buckets, in list order. -/
def updateGroups (st : Cache) : List GroupDB → Except CacheError Cache
  | [] => .ok st
  | groupContent :: rest =>
      let existingGroup := (lookupA st.groupByID groupContent.gid).getD ⟨"", 0⟩
      if existingGroup.name ≠ "" ∧ existingGroup.name ≠ groupContent.name then
        .error .conflictingGroupGID
      else
        updateGroups
          { st with
              groupByID := insertA st.groupByID groupContent.gid
                ⟨groupContent.name, groupContent.gid⟩
              groupByName := insertA st.groupByName groupContent.name
                ⟨groupContent.name, groupContent.gid⟩ }
          rest

/-- Body of the first loop of `updateUsersAndGroups`: load
`group_to_users[gid]` (zero value on `NoDataFoundError`), set its GID,
add `uid` if absent, write back. -/
def addUserToGroupStep (uid : Nat) (st : Cache) (groupContent : GroupDB) : Cache :=
  let grpToUsers := (lookupA st.groupToUsers groupContent.gid).getD ⟨0, []⟩
  let grpToUsers := { grpToUsers with gid := groupContent.gid }
  let grpToUsers :=
    if uid ∈ grpToUsers.uids then grpToUsers
    else { grpToUsers with uids := grpToUsers.uids ++ [uid] }
  { st with groupToUsers := insertA st.groupToUsers groupContent.gid grpToUsers }

/-- First loop of `updateUsersAndGroups`: `addUserToGroupStep` over each
group in the new list, in order. -/
def addUserToGroups (uid : Nat) : Cache → List GroupDB → Cache
  | st, [] => st
  | st, groupContent :: rest =>
      addUserToGroups uid (addUserToGroupStep uid st groupContent) rest

/-- Modelled from the spec: `deleteUserFromGroup` is referenced by
`updateUsersAndGroups` but its defining file is not in the sources. Spec
§4.2 step 4: "For each GID in `removed`: load `group_to_users[gid]`, remove
`uid`, write back. If the resulting uid list is empty, the group's
GroupUsersEdge still persists with an empty set (groups are not
garbage-collected by this path)." -/
def deleteUserFromGroup (st : Cache) (uid gid : Nat) : Cache :=
  let grpToUsers := (lookupA st.groupToUsers gid).getD ⟨gid, []⟩
  let grpToUsers := { grpToUsers with uids := grpToUsers.uids.filter (· ≠ uid) }
  { st with groupToUsers := insertA st.groupToUsers gid grpToUsers }

/-- Second loop of `updateUsersAndGroups`: remove `uid` from every group
it is no longer part of. -/
def removeFromOldGroups (uid : Nat) (currentGIDs : List Nat) :
    Cache → List Nat → Cache
  | st, [] => st
  | st, previousGID :: rest =>
      if previousGID ∈ currentGIDs then
        removeFromOldGroups uid currentGIDs st rest
      else
        removeFromOldGroups uid currentGIDs (deleteUserFromGroup st uid previousGID) rest

/-- `updateUsersAndGroups`: reconcile both membership pivot buckets.
`currentGIDs` is accumulated over the first loop as `gs.map (·.gid)`. -/
def updateUsersAndGroups (st : Cache) (uid : Nat) (groupContents : List GroupDB)
    (previousGIDs : List Nat) : Cache :=
  let currentGIDs := groupContents.map (·.gid)
  let st := addUserToGroups uid st groupContents
  let st := { st with userToGroups := insertA st.userToGroups uid ⟨uid, currentGIDs⟩ }
  removeFromOldGroups uid currentGIDs st previousGIDs

/-- `Cache.UpdateUserEntry`: one write transaction. Reads the previous
forward edge, then user update, group updates, membership reconciliation.
`now` is `time.Now()` stamped onto `LastLogin`. An error aborts the
transaction: the caller's state is unchanged. -/
def UpdateUserEntry (st : Cache) (usr : UserDB) (groupContents : List GroupDB)
    (now : Nat) : Except CacheError Cache :=
  let userContent : UserRec := { usr with lastLogin := now }
  let previousGroupsForCurrentUser :=
    (lookupA st.userToGroups usr.uid).getD ⟨0, []⟩
  match updateUser st userContent with
  | .error e => .error e
  | .ok st₁ =>
    match updateGroups st₁ groupContents with
    | .error e => .error e
    | .ok st₂ =>
        .ok (updateUsersAndGroups st₂ usr.uid groupContents
              previousGroupsForCurrentUser.gids)

/-- Modelled from the spec: `UserByName` is not in the sources (only its
NSS callers are). Spec §4.2: "`UserByName(name) → UserPasswdShadow` ...
Read-only; return NotFound when absent." -/
def UserByName (st : Cache) (name : String) : Option UserRec :=
  lookupA st.userByName name

/-- Modelled from the spec: `UserByID` is not in the sources. Spec §4.2:
"`UserByID(uid) → UserPasswdShadow` ... return NotFound when absent." -/
def UserByID (st : Cache) (uid : Nat) : Option UserRec :=
  lookupA st.userByID uid

/-- Modelled from the spec: `GroupByID` is not in the sources. Spec §4.2:
"analogously for groups, `GroupByName`, `GroupByID`"; NotFound when
absent. -/
def GroupByID (st : Cache) (gid : Nat) : Option GroupDB :=
  lookupA st.groupByID gid

/-- A batch of committed `UpdateUserEntry` calls: an aborted transaction
leaves the state unchanged. -/
def applyUpdates : Cache → List (UserDB × List GroupDB × Nat) → Cache
  | st, [] => st
  | st, (usr, gs, now) :: rest =>
      match UpdateUserEntry st usr gs now with
      | .ok st' => applyUpdates st' rest
      | .error _ => applyUpdates st rest

/-! ## Broker manager (`internal/brokers/manager.go`)

A `Broker` is an opaque capability; only its identity matters to the
manager's bookkeeping, so it is modelled by its ID. The broker-side IPC
calls (`newSession`, `endSession`) are external collaborators: their
outcomes enter the model as parameters. -/

/-- A loaded broker, identified by `Broker.ID`. -/
structure Broker where
  id : String
deriving DecidableEq, Repr

/-- Modelled from the spec: `localBrokerName` is declared in a broker
source file not in the sources; spec §4.3 calls it the in-process "local
broker" requiring no configuration file. Only its distinguished identity
matters. -/
def localBrokerName : String := "local"

/-- Manager errors observable in the pure model. -/
inductive MgrError where
  /-- "no broker found matching %q" (wrapped as "invalid broker: ..."). -/
  | invalidBroker (id : String) : MgrError
  /-- "no broker found for session %q". -/
  | noBrokerForSession (id : String) : MgrError
  /-- An error returned by the broker IPC call, propagated verbatim. -/
  | brokerFailure : MgrError
deriving DecidableEq, Repr

/-- `Manager`: broker registry (map plus preference order) and the
session → broker index. The user → broker index is not needed by the
claims under verification. -/
structure Manager where
  brokers : List (String × Broker)
  brokersOrder : List String
  transactionsToBroker : List (String × Broker)
deriving DecidableEq, Repr

/-- `Manager.brokerFromID`. -/
def brokerFromID (m : Manager) (id : String) : Except MgrError Broker :=
  match lookupA m.brokers id with
  | none => .error (.invalidBroker id)
  | some broker => .ok broker

/-- `Manager.BrokerFromSessionID`: empty id is the local-broker sentinel,
resolved from the registry before the session map is consulted. -/
def BrokerFromSessionID (m : Manager) (id : String) : Except MgrError Broker :=
  if id = "" then
    brokerFromID m localBrokerName
  else
    match lookupA m.transactionsToBroker id with
    | none => .error (.noBrokerForSession id)
    | some broker => .ok broker

/-- `Manager.NewSession`. `brokerResult` is the outcome of the external
`broker.newSession(ctx, username, lang)` IPC call: `.ok (sessionID,
encryptionKey)` or a broker-side failure. Returns the call result paired
with the post-state of the manager. -/
def NewSession (m : Manager) (brokerID : String)
    (brokerResult : Except Unit (String × String)) :
    Except MgrError (String × String) × Manager :=
  match brokerFromID m brokerID with
  | .error e => (.error e, m)
  | .ok broker =>
    match brokerResult with
    | .error _ => (.error .brokerFailure, m)
    | .ok (sessionID, encryptionKey) =>
        (.ok (sessionID, encryptionKey),
         { m with transactionsToBroker :=
             insertA m.transactionsToBroker sessionID broker })

/-- `Manager.EndSession`. `endResult` is the outcome of the external
`b.endSession(ctx, sessionID)` IPC call for the resolved broker. Returns
the call result paired with the post-state of the manager. -/
def EndSession (m : Manager) (sessionID : String)
    (endResult : Broker → Except Unit Unit) :
    Except MgrError Unit × Manager :=
  match BrokerFromSessionID m sessionID with
  | .error e => (.error e, m)
  | .ok b =>
    match endResult b with
    | .error _ => (.error .brokerFailure, m)
    | .ok _ =>
        (.ok (), { m with transactionsToBroker :=
                     eraseA m.transactionsToBroker sessionID })

/-- Modelled from the spec: `newBroker` (config parsing) is not in the
sources; spec §4.3: "A broker whose configuration is unparseable is
skipped with a warning, never fatal". `parse n` is the outcome of
`newBroker(ctx, n, configFile, bus)` for configuration name `n`.
`NewManager` registers the local broker first, then every configured
broker that parses, in the given order; environmental failures (dbus,
directory I/O) have no pure counterpart. -/
def loadBrokerLoop (parse : String → Option Broker)
    (acc : List String × List (String × Broker)) (n : String) :
    List String × List (String × Broker) :=
  match parse n with
  | none => acc
  | some b => (acc.1 ++ [b.id], insertA acc.2 b.id b)

/-- `NewManager`, continued: the local broker is registered first, then
the configured brokers are loaded in the given order via
`loadBrokerLoop`. -/
def NewManager (configuredBrokers : List String)
    (parse : String → Option Broker) : Manager :=
  let localB : Broker := ⟨localBrokerName⟩
  let loaded := configuredBrokers.foldl (loadBrokerLoop parse)
    ([localB.id], [(localB.id, localB)])
  { brokers := loaded.2, brokersOrder := loaded.1, transactionsToBroker := [] }

/-- `Manager.AvailableBrokers`: brokers in preference order; an order
entry missing from the map would be Go's nil pointer, modelled as
`none`. -/
def AvailableBrokers (m : Manager) : List (Option Broker) :=
  m.brokersOrder.map (lookupA m.brokers)

/-! ## Specification predicates and concrete states -/

/-- `gid ∈ user_to_groups[uid].gids`, read through the forward bucket
(an absent edge has no members). -/
def userHasGroup (st : Cache) (uid gid : Nat) : Prop :=
  gid ∈ ((lookupA st.userToGroups uid).getD ⟨uid, []⟩).gids

/-- `uid ∈ group_to_users[gid].uids`, read through the reverse bucket
(an absent edge has no members). -/
def groupHasUser (st : Cache) (gid uid : Nat) : Prop :=
  uid ∈ ((lookupA st.groupToUsers gid).getD ⟨gid, []⟩).uids

/-- Spec invariant 2, bidirectional membership: for every `(uid, gid)`,
`gid ∈ user_to_groups[uid].gids ⇔ uid ∈ group_to_users[gid].uids`. -/
def Bidirectional (st : Cache) : Prop :=
  ∀ uid gid, userHasGroup st uid gid ↔ groupHasUser st gid uid

/-- The incoming UID is already bound to a different (non-empty) user
name: the condition `updateUser` aborts on. -/
def UserConflict (st : Cache) (usr : UserDB) : Prop :=
  ∃ ex, lookupA st.userByID usr.uid = some ex ∧ ex.name ≠ "" ∧ ex.name ≠ usr.name

/-- The group's GID is already bound to a different (non-empty) group
name: the condition `updateGroups` aborts on. -/
def GroupConflict (st : Cache) (g : GroupDB) : Prop :=
  ∃ ex, lookupA st.groupByID g.gid = some ex ∧ ex.name ≠ "" ∧ ex.name ≠ g.name

/-- Spec scenario user: `alice`, UID 1000, primary GID 100, homedir
`/home/alice`. -/
def aliceU : UserDB :=
  { name := "alice", uid := 1000, gid := 100, gecos := "gecos", dir := "/home/alice"
    shell := "/bin/sh", lastPwdChange := -1, maxPwdAge := 2, pwdWarnPeriod := 3
    pwdInactivity := 4, minPwdAge := 5, expirationDate := 6 }

/-- Store after spec scenario 1: `alice` inserted with groups
`[{users,100},{dev,2000}]`. -/
def aliceCache : Cache :=
  applyUpdates emptyCache [(aliceU, [⟨"users", 100⟩, ⟨"dev", 2000⟩], 1)]

/-- Spec scenario 4, second step: re-update of `alice` carrying a
different homedir `/tmp/x`. -/
def aliceTmpU : UserDB := { aliceU with dir := "/tmp/x" }

/-- The transaction of spec scenarios 2 and 4 combined: re-update `alice`
with `dev` removed and homedir `/tmp/x`. -/
def aliceSecond : Except CacheError Cache :=
  UpdateUserEntry aliceCache aliceTmpU [⟨"users", 100⟩] 2

/-- A manager holding only the local broker, with an empty session
index. -/
def localOnlyMgr : Manager :=
  { brokers := [(localBrokerName, ⟨localBrokerName⟩)]
    brokersOrder := [localBrokerName], transactionsToBroker := [] }

/-- Committed store of spec scenario 1, extracted as a plain value. -/
def alicePost : Cache :=
  (UpdateUserEntry emptyCache aliceU [⟨"users", 100⟩, ⟨"dev", 2000⟩] 1).toOption.getD
    emptyCache

/-- Committed store after the second `alice` transaction. -/
def aliceSecondPost : Cache := aliceSecond.toOption.getD emptyCache

/-- A manager with the local broker and one live session `sid1`. -/
def sessionMgr : Manager :=
  { brokers := [(localBrokerName, ⟨localBrokerName⟩)]
    brokersOrder := [localBrokerName]
    transactionsToBroker := [("sid1", ⟨localBrokerName⟩)] }

/-! ## Association-list lemmas -/

theorem lookupA_insertA {K V : Type} [DecidableEq K] (l : List (K × V)) (k : K)
    (v : V) (k' : K) :
    lookupA (insertA l k v) k' = if k' = k then some v else lookupA l k' := by
  induction l with
  | nil =>
    simp only [insertA, lookupA]
    by_cases h : k' = k
    · subst h; simp
    · rw [if_neg (fun hh => h hh.symm), if_neg h]
  | cons hd tl ih =>
    obtain ⟨hk, hv⟩ := hd
    simp only [insertA]
    by_cases h1 : hk = k
    · subst h1
      rw [if_pos rfl]
      simp only [lookupA]
      by_cases h2 : k' = hk
      · subst h2; simp
      · rw [if_neg (fun hh => h2 hh.symm), if_neg h2, if_neg (fun hh => h2 hh.symm)]
    · rw [if_neg h1]
      simp only [lookupA, ih]
      by_cases h2 : hk = k' <;> by_cases h3 : k' = k
      · exact absurd (h2.trans h3) h1
      · simp [h2, h3]
      · simp [h2, h3, h1]
      · simp [h2, h3]

theorem lookupA_eraseA {K V : Type} [DecidableEq K] (l : List (K × V)) (k k' : K) :
    lookupA (eraseA l k) k' = if k' = k then none else lookupA l k' := by
  induction l with
  | nil => simp [eraseA, lookupA]
  | cons hd tl ih =>
    obtain ⟨hk, hv⟩ := hd
    simp only [eraseA]
    by_cases h1 : hk = k
    · subst h1
      rw [if_pos rfl, ih]
      by_cases h3 : k' = hk
      · simp [h3]
      · have h4 : ¬hk = k' := fun hh => h3 hh.symm
        simp [lookupA, h3, h4]
    · rw [if_neg h1]
      simp only [lookupA, ih]
      by_cases h2 : hk = k' <;> by_cases h3 : k' = k
      · exact absurd (h2.trans h3) h1
      · simp [h2, h3]
      · simp [h2, h3, h1]
      · simp [h2, h3]

/-! ## Frame lemmas: which buckets each write step leaves untouched -/

theorem addUserToGroups_frame (uid : Nat) :
    ∀ (gs : List GroupDB) (st : Cache),
      (addUserToGroups uid st gs).userByID = st.userByID ∧
      (addUserToGroups uid st gs).userByName = st.userByName ∧
      (addUserToGroups uid st gs).groupByID = st.groupByID ∧
      (addUserToGroups uid st gs).groupByName = st.groupByName ∧
      (addUserToGroups uid st gs).userToGroups = st.userToGroups
  | [], st => by simp [addUserToGroups]
  | g :: rest, st => by
    simp only [addUserToGroups]
    exact addUserToGroups_frame uid rest _

theorem deleteUserFromGroup_frame (st : Cache) (uid gid : Nat) :
    (deleteUserFromGroup st uid gid).userByID = st.userByID ∧
    (deleteUserFromGroup st uid gid).userByName = st.userByName ∧
    (deleteUserFromGroup st uid gid).groupByID = st.groupByID ∧
    (deleteUserFromGroup st uid gid).groupByName = st.groupByName ∧
    (deleteUserFromGroup st uid gid).userToGroups = st.userToGroups := by
  simp [deleteUserFromGroup]

theorem removeFromOldGroups_frame (uid : Nat) (cur : List Nat) :
    ∀ (prev : List Nat) (st : Cache),
      (removeFromOldGroups uid cur st prev).userByID = st.userByID ∧
      (removeFromOldGroups uid cur st prev).userByName = st.userByName ∧
      (removeFromOldGroups uid cur st prev).groupByID = st.groupByID ∧
      (removeFromOldGroups uid cur st prev).groupByName = st.groupByName ∧
      (removeFromOldGroups uid cur st prev).userToGroups = st.userToGroups
  | [], st => by simp [removeFromOldGroups]
  | p :: rest, st => by
    simp only [removeFromOldGroups]
    by_cases hp : p ∈ cur
    · simp only [if_pos hp]
      exact removeFromOldGroups_frame uid cur rest st
    · simp only [if_neg hp]
      have h1 := removeFromOldGroups_frame uid cur rest (deleteUserFromGroup st uid p)
      have h2 := deleteUserFromGroup_frame st uid p
      exact ⟨h1.1.trans h2.1, h1.2.1.trans h2.2.1, h1.2.2.1.trans h2.2.2.1,
        h1.2.2.2.1.trans h2.2.2.2.1, h1.2.2.2.2.trans h2.2.2.2.2⟩

theorem updateUsersAndGroups_frame (st : Cache) (uid : Nat) (gs : List GroupDB)
    (prev : List Nat) :
    (updateUsersAndGroups st uid gs prev).userByID = st.userByID ∧
    (updateUsersAndGroups st uid gs prev).userByName = st.userByName ∧
    (updateUsersAndGroups st uid gs prev).groupByID = st.groupByID ∧
    (updateUsersAndGroups st uid gs prev).groupByName = st.groupByName := by
  simp only [updateUsersAndGroups]
  have h1 := removeFromOldGroups_frame uid (gs.map (·.gid)) prev
    { addUserToGroups uid st gs with
        userToGroups := insertA (addUserToGroups uid st gs).userToGroups uid
          ⟨uid, gs.map (·.gid)⟩ }
  have h2 := addUserToGroups_frame uid gs st
  exact ⟨h1.1.trans h2.1, h1.2.1.trans h2.2.1, h1.2.2.1.trans h2.2.2.1,
    h1.2.2.2.1.trans h2.2.2.2.1⟩

theorem updateUser_ok_frame (st : Cache) (uc : UserRec) (st₁ : Cache)
    (h : updateUser st uc = .ok st₁) :
    st₁.groupByID = st.groupByID ∧ st₁.groupByName = st.groupByName ∧
    st₁.userToGroups = st.userToGroups ∧ st₁.groupToUsers = st.groupToUsers := by
  simp only [updateUser] at h
  split at h
  · exact absurd h (by simp)
  · exact (Except.ok.injEq _ _ ▸ h) ▸ ⟨rfl, rfl, rfl, rfl⟩

theorem updateGroups_ok_frame :
    ∀ (gs : List GroupDB) (st st₂ : Cache), updateGroups st gs = .ok st₂ →
      st₂.userByID = st.userByID ∧ st₂.userByName = st.userByName ∧
      st₂.userToGroups = st.userToGroups ∧ st₂.groupToUsers = st.groupToUsers
  | [], st, st₂, h => by
    simp only [updateGroups, Except.ok.injEq] at h
    subst h
    exact ⟨rfl, rfl, rfl, rfl⟩
  | g :: rest, st, st₂, h => by
    simp only [updateGroups] at h
    split at h
    · exact absurd h (by simp)
    · have ih := updateGroups_ok_frame rest _ st₂ h
      exact ⟨ih.1, ih.2.1, ih.2.2.1, ih.2.2.2⟩

/-! ## Membership characterization of the reconciliation loops -/

theorem groupHasUser_addUserToGroupStep (uid : Nat) (st : Cache) (gc : GroupDB)
    (g u : Nat) :
    groupHasUser (addUserToGroupStep uid st gc) g u ↔
      ((u = uid ∧ g = gc.gid) ∨ groupHasUser st g u) := by
  simp only [groupHasUser, addUserToGroupStep, lookupA_insertA]
  by_cases hg : g = gc.gid
  · rw [if_pos hg, hg]
    cases hl : lookupA st.groupToUsers gc.gid with
    | none => simp [hl]
    | some e =>
      simp only [Option.getD_some]
      split <;> rename_i hmem
      · constructor
        · exact fun h => Or.inr h
        · rintro (⟨rfl, -⟩ | h)
          · exact hmem
          · exact h
      · simp [List.mem_append, or_comm]
  · rw [if_neg hg]
    simp [hg]

theorem groupHasUser_addUserToGroups (uid : Nat) :
    ∀ (gs : List GroupDB) (st : Cache) (g u : Nat),
      groupHasUser (addUserToGroups uid st gs) g u ↔
        ((u = uid ∧ g ∈ gs.map (·.gid)) ∨ groupHasUser st g u)
  | [], st, g, u => by simp [addUserToGroups]
  | gc :: rest, st, g, u => by
    rw [addUserToGroups, groupHasUser_addUserToGroups uid rest,
      groupHasUser_addUserToGroupStep]
    simp only [List.map_cons, List.mem_cons]
    tauto

theorem groupHasUser_deleteUserFromGroup (st : Cache) (uid gid g u : Nat) :
    groupHasUser (deleteUserFromGroup st uid gid) g u ↔
      (groupHasUser st g u ∧ ¬(u = uid ∧ g = gid)) := by
  simp only [deleteUserFromGroup, groupHasUser, lookupA_insertA]
  by_cases hg : g = gid
  · subst hg
    rw [if_pos rfl]
    cases hl : lookupA st.groupToUsers g <;>
      · simp only [hl, Option.getD]
        by_cases hu : u = uid <;> simp_all [List.mem_filter]
  · rw [if_neg hg]
    simp [hg]

theorem groupHasUser_removeFromOldGroups (uid : Nat) (cur : List Nat) :
    ∀ (prev : List Nat) (st : Cache) (g u : Nat),
      groupHasUser (removeFromOldGroups uid cur st prev) g u ↔
        (groupHasUser st g u ∧ ¬(u = uid ∧ g ∈ prev ∧ g ∉ cur))
  | [], st, g, u => by simp [removeFromOldGroups]
  | p :: rest, st, g, u => by
    rw [removeFromOldGroups]
    by_cases hp : p ∈ cur
    · rw [if_pos hp, groupHasUser_removeFromOldGroups uid cur rest]
      constructor
      · rintro ⟨h1, h2⟩
        refine ⟨h1, ?_⟩
        rintro ⟨hu, hg, hc⟩
        rcases List.mem_cons.mp hg with hg | hg
        · exact hc (hg ▸ hp)
        · exact h2 ⟨hu, hg, hc⟩
      · rintro ⟨h1, h2⟩
        exact ⟨h1, fun ⟨hu, hg, hc⟩ => h2 ⟨hu, List.mem_cons_of_mem _ hg, hc⟩⟩
    · rw [if_neg hp, groupHasUser_removeFromOldGroups uid cur rest,
        groupHasUser_deleteUserFromGroup]
      constructor
      · rintro ⟨⟨h1, h2⟩, h3⟩
        refine ⟨h1, ?_⟩
        rintro ⟨hu, hg, hc⟩
        rcases List.mem_cons.mp hg with hg | hg
        · exact h2 ⟨hu, hg⟩
        · exact h3 ⟨hu, hg, hc⟩
      · rintro ⟨h1, h2⟩
        refine ⟨⟨h1, ?_⟩, ?_⟩
        · rintro ⟨hu, hg⟩
          exact h2 ⟨hu, hg ▸ List.mem_cons_self _ _, hg ▸ hp⟩
        · rintro ⟨hu, hg, hc⟩
          exact h2 ⟨hu, List.mem_cons_of_mem _ hg, hc⟩

theorem lookupGTU_deleteUserFromGroup_self (st : Cache) (uid gid : Nat) :
    (lookupA (deleteUserFromGroup st uid gid).groupToUsers gid).isSome = true := by
  simp [deleteUserFromGroup, lookupA_insertA]

theorem lookupGTU_deleteUserFromGroup_isSome (st : Cache) (uid gid g : Nat)
    (h : (lookupA st.groupToUsers g).isSome = true) :
    (lookupA (deleteUserFromGroup st uid g).groupToUsers g).isSome = true ∧
    (lookupA (deleteUserFromGroup st uid gid).groupToUsers g).isSome = true := by
  refine ⟨lookupGTU_deleteUserFromGroup_self st uid g, ?_⟩
  simp only [deleteUserFromGroup, lookupA_insertA]
  by_cases hg : g = gid <;> simp [hg, h]

theorem lookupGTU_removeFromOldGroups_isSome (uid : Nat) (cur : List Nat) :
    ∀ (prev : List Nat) (st : Cache) (g : Nat),
      (lookupA st.groupToUsers g).isSome = true →
      (lookupA (removeFromOldGroups uid cur st prev).groupToUsers g).isSome = true
  | [], st, g, h => by simpa [removeFromOldGroups] using h
  | p :: rest, st, g, h => by
    rw [removeFromOldGroups]
    by_cases hp : p ∈ cur
    · rw [if_pos hp]
      exact lookupGTU_removeFromOldGroups_isSome uid cur rest st g h
    · rw [if_neg hp]
      exact lookupGTU_removeFromOldGroups_isSome uid cur rest _ g
        ((lookupGTU_deleteUserFromGroup_isSome st uid p g h).2)

theorem lookupGTU_removeFromOldGroups_removed (uid : Nat) (cur : List Nat) :
    ∀ (prev : List Nat) (st : Cache) (g : Nat), g ∈ prev → g ∉ cur →
      (lookupA (removeFromOldGroups uid cur st prev).groupToUsers g).isSome = true
  | [], _, _, h, _ => absurd h (List.not_mem_nil _)
  | p :: rest, st, g, h, hc => by
    rw [removeFromOldGroups]
    rcases List.mem_cons.mp h with hg | hg
    · subst hg
      rw [if_neg hc]
      by_cases hr : g ∈ rest
      · exact lookupGTU_removeFromOldGroups_removed uid cur rest _ g hr hc
      · exact lookupGTU_removeFromOldGroups_isSome uid cur rest _ g
          (lookupGTU_deleteUserFromGroup_self st uid g)
    · by_cases hp : p ∈ cur
      · rw [if_pos hp]
        exact lookupGTU_removeFromOldGroups_removed uid cur rest st g hg hc
      · rw [if_neg hp]
        exact lookupGTU_removeFromOldGroups_removed uid cur rest _ g hg hc

theorem getD_gids_default (o : Option UserToGroupsDB) (a b : Nat) :
    (o.getD ⟨a, []⟩).gids = (o.getD ⟨b, []⟩).gids := by
  cases o <;> rfl

theorem groupHasUser_other_buckets (st : Cache) (g u : Nat)
    (X : Cache) (hX : X.groupToUsers = st.groupToUsers) :
    groupHasUser X g u ↔ groupHasUser st g u := by
  unfold groupHasUser
  rw [hX]

theorem lookupUTG_updateUsersAndGroups (st : Cache) (uid : Nat) (gs : List GroupDB)
    (prev : List Nat) (u : Nat) :
    lookupA (updateUsersAndGroups st uid gs prev).userToGroups u =
      if u = uid then some ⟨uid, gs.map (·.gid)⟩ else lookupA st.userToGroups u := by
  simp only [updateUsersAndGroups]
  rw [(removeFromOldGroups_frame uid (gs.map (·.gid)) prev _).2.2.2.2]
  show lookupA (insertA (addUserToGroups uid st gs).userToGroups uid
    ⟨uid, gs.map (·.gid)⟩) u = _
  rw [lookupA_insertA, (addUserToGroups_frame uid gs st).2.2.2.2]

theorem groupHasUser_updateUsersAndGroups (st : Cache) (uid : Nat) (gs : List GroupDB)
    (prev : List Nat) (g u : Nat) :
    groupHasUser (updateUsersAndGroups st uid gs prev) g u ↔
      (((u = uid ∧ g ∈ gs.map (·.gid)) ∨ groupHasUser st g u) ∧
        ¬(u = uid ∧ g ∈ prev ∧ g ∉ gs.map (·.gid))) := by
  simp only [updateUsersAndGroups]
  rw [groupHasUser_removeFromOldGroups]
  exact and_congr_left' (groupHasUser_addUserToGroups uid gs st g u)

/-- Destructor for a committed `UpdateUserEntry` transaction: the three
phases all succeeded, in order. -/
theorem UpdateUserEntry_ok_elim (st : Cache) (usr : UserDB) (gs : List GroupDB)
    (now : Nat) (st' : Cache) (h : UpdateUserEntry st usr gs now = .ok st') :
    ∃ st₁ st₂, updateUser st { usr with lastLogin := now } = .ok st₁ ∧
      updateGroups st₁ gs = .ok st₂ ∧
      st' = updateUsersAndGroups st₂ usr.uid gs
        ((lookupA st.userToGroups usr.uid).getD ⟨0, []⟩).gids := by
  simp only [UpdateUserEntry] at h
  split at h <;> rename_i x h1
  · exact absurd h (by simp)
  · split at h <;> rename_i y h2
    · exact absurd h (by simp)
    · injection h with h
      exact ⟨x, y, h1, h2, h.symm⟩

/-- Every committed `UpdateUserEntry` preserves bidirectional
membership. -/
theorem bidirectional_step (st st' : Cache) (usr : UserDB) (gs : List GroupDB)
    (now : Nat) (hbi : Bidirectional st)
    (h : UpdateUserEntry st usr gs now = .ok st') : Bidirectional st' := by
  obtain ⟨st₁, st₂, h1, h2, rfl⟩ := UpdateUserEntry_ok_elim st usr gs now st' h
  have hGTU : st₂.groupToUsers = st.groupToUsers :=
    ((updateGroups_ok_frame gs _ st₂ h2).2.2.2).trans
      (updateUser_ok_frame st _ st₁ h1).2.2.2
  have hUTG : st₂.userToGroups = st.userToGroups :=
    ((updateGroups_ok_frame gs _ st₂ h2).2.2.1).trans
      (updateUser_ok_frame st _ st₁ h1).2.2.1
  intro u g
  have hghu2 : groupHasUser st₂ g u ↔ groupHasUser st g u :=
    groupHasUser_other_buckets st g u st₂ hGTU
  rw [groupHasUser_updateUsersAndGroups]
  unfold userHasGroup
  rw [lookupUTG_updateUsersAndGroups]
  by_cases hu : u = usr.uid
  · rw [if_pos hu]
    simp only [Option.getD_some]
    have hp : groupHasUser st g u ↔
        g ∈ ((lookupA st.userToGroups usr.uid).getD ⟨0, []⟩).gids := by
      rw [← hbi u g]
      unfold userHasGroup
      rw [hu, getD_gids_default _ usr.uid 0]
    rw [hghu2, hp]
    simp only [hu, true_and]
    by_cases hc : g ∈ gs.map (·.gid) <;>
      by_cases hq : g ∈ ((lookupA st.userToGroups usr.uid).getD ⟨0, []⟩).gids <;>
        simp [hc, hq]
  · rw [if_neg hu, hUTG, hghu2]
    simp only [hu, false_and, not_false_iff, and_true, false_or]
    exact hbi u g

theorem bidirectional_empty : Bidirectional emptyCache := by
  intro u g
  simp [userHasGroup, groupHasUser, emptyCache, lookupA]

theorem bidirectional_applyUpdates :
    ∀ (ops : List (UserDB × List GroupDB × Nat)) (st : Cache),
      Bidirectional st → Bidirectional (applyUpdates st ops)
  | [], _, h => h
  | (usr, gs, now) :: rest, st, h => by
    rw [applyUpdates]
    split <;> rename_i heq
    · exact bidirectional_applyUpdates rest _
        (bidirectional_step st _ usr gs now h heq)
    · exact bidirectional_applyUpdates rest st h

/-! ## Characterization of `updateUser` and `updateGroups` -/

theorem updateUser_ok_char (st : Cache) (uc : UserRec) (st₁ : Cache)
    (h : updateUser st uc = .ok st₁) :
    ∃ w : UserRec,
      w = (if ((lookupA st.userByID uc.uid).getD zeroUserRec).dir ≠ "" ∧
              ((lookupA st.userByID uc.uid).getD zeroUserRec).dir ≠ uc.dir
           then { uc with dir := ((lookupA st.userByID uc.uid).getD zeroUserRec).dir }
           else uc) ∧
      w.uid = uc.uid ∧ w.name = uc.name ∧
      st₁ = { st with userByID := insertA st.userByID w.uid w
                      userByName := insertA st.userByName w.name w } := by
  simp only [updateUser] at h
  split at h <;> rename_i hcon
  · exact absurd h (by simp)
  · injection h with h
    refine ⟨_, rfl, ?_, ?_, h.symm⟩
    · split <;> rfl
    · split <;> rfl

theorem updateUser_no_conflict_ok (st : Cache) (uc : UserRec)
    (h : ¬(((lookupA st.userByID uc.uid).getD zeroUserRec).name ≠ "" ∧
           ((lookupA st.userByID uc.uid).getD zeroUserRec).name ≠ uc.name)) :
    ∃ st₁, updateUser st uc = .ok st₁ := by
  simp only [updateUser]
  rw [if_neg h]
  exact ⟨_, rfl⟩

theorem updateUser_conflict_error (st : Cache) (uc : UserRec)
    (h : UserConflict st uc.toUserDB) :
    updateUser st uc = .error .conflictingUserUID := by
  obtain ⟨ex, hex, hn, hne⟩ := h
  simp only [updateUser, hex, Option.getD_some]
  exact if_pos ⟨hn, hne⟩

theorem groupConflict_same_bucket (st X : Cache) (g : GroupDB)
    (hX : X.groupByID = st.groupByID) :
    GroupConflict X g ↔ GroupConflict st g := by
  unfold GroupConflict
  rw [hX]

theorem updateGroups_conflict :
    ∀ (gs : List GroupDB) (st : Cache), (∃ g ∈ gs, GroupConflict st g) →
      ∃ e, updateGroups st gs = .error e
  | [], _, h => by simp at h
  | gc :: rest, st, h => by
    rw [updateGroups]
    split <;> rename_i hcon
    · exact ⟨_, rfl⟩
    · apply updateGroups_conflict rest
      obtain ⟨g, hg, ex, hex, hexn, hexne⟩ := h
      rcases List.mem_cons.mp hg with rfl | hgr
      · exfalso
        simp only [hex, Option.getD_some] at hcon
        exact hcon ⟨hexn, hexne⟩
      · refine ⟨g, hgr, ?_⟩
        show GroupConflict _ g
        by_cases hgid : g.gid = gc.gid
        · have hex2 : lookupA st.groupByID gc.gid = some ex := hgid ▸ hex
          simp only [hex2, Option.getD_some] at hcon
          have hname : ex.name = gc.name := by
            by_cases hq : ex.name = gc.name
            · exact hq
            · exact absurd ⟨hexn, hq⟩ hcon
          refine ⟨⟨gc.name, gc.gid⟩, ?_, ?_, ?_⟩
          · show lookupA (insertA st.groupByID gc.gid ⟨gc.name, gc.gid⟩) g.gid = _
            rw [lookupA_insertA, if_pos hgid]
          · show gc.name ≠ ""
            rw [← hname]
            exact hexn
          · show gc.name ≠ g.name
            rw [← hname]
            exact hexne
        · refine ⟨ex, ?_, hexn, hexne⟩
          show lookupA (insertA st.groupByID gc.gid ⟨gc.name, gc.gid⟩) g.gid = _
          rw [lookupA_insertA, if_neg hgid]
          exact hex

theorem updateGroups_ok_untouched_gid :
    ∀ (gs : List GroupDB) (st st₂ : Cache), updateGroups st gs = .ok st₂ →
      ∀ g, g ∉ gs.map (·.gid) → lookupA st₂.groupByID g = lookupA st.groupByID g
  | [], st, st₂, h, g, _ => by
    simp only [updateGroups, Except.ok.injEq] at h
    subst h
    rfl
  | gc :: rest, st, st₂, h, g, hng => by
    simp only [updateGroups] at h
    split at h
    · exact absurd h (by simp)
    · have hg1 : g ∉ rest.map (·.gid) := fun hh => hng (by
        simp only [List.map_cons, List.mem_cons]
        exact Or.inr hh)
      have hg2 : g ≠ gc.gid := fun hh => hng (by
        simp only [List.map_cons, List.mem_cons]
        exact Or.inl hh)
      rw [updateGroups_ok_untouched_gid rest _ st₂ h g hg1]
      show lookupA (insertA st.groupByID gc.gid ⟨gc.name, gc.gid⟩) g = _
      rw [lookupA_insertA, if_neg hg2]

/-- User-bucket view of a committed `UpdateUserEntry`: both user buckets
hold the incoming record (timestamped `now`), except that the stored
homedir wins when non-empty and different. -/
theorem UpdateUserEntry_ok_user_lookup (st : Cache) (usr : UserDB)
    (gs : List GroupDB) (now : Nat) (st' : Cache)
    (h : UpdateUserEntry st usr gs now = .ok st') :
    ∃ w : UserRec,
      w = (if ((lookupA st.userByID usr.uid).getD zeroUserRec).dir ≠ "" ∧
              ((lookupA st.userByID usr.uid).getD zeroUserRec).dir ≠ usr.dir
           then { toUserDB :=
                    { usr with dir := ((lookupA st.userByID usr.uid).getD zeroUserRec).dir }
                  lastLogin := now }
           else { toUserDB := usr, lastLogin := now }) ∧
      UserByID st' usr.uid = some w ∧ UserByName st' usr.name = some w := by
  obtain ⟨st₁, st₂, h1, h2, rfl⟩ := UpdateUserEntry_ok_elim st usr gs now st' h
  obtain ⟨w, hw, hwu, hwn, hst₁⟩ := updateUser_ok_char st _ st₁ h1
  have hID : (updateUsersAndGroups st₂ usr.uid gs
      ((lookupA st.userToGroups usr.uid).getD ⟨0, []⟩).gids).userByID = st₁.userByID :=
    (updateUsersAndGroups_frame st₂ _ _ _).1.trans (updateGroups_ok_frame gs st₁ st₂ h2).1
  have hName : (updateUsersAndGroups st₂ usr.uid gs
      ((lookupA st.userToGroups usr.uid).getD ⟨0, []⟩).gids).userByName = st₁.userByName :=
    (updateUsersAndGroups_frame st₂ _ _ _).2.1.trans
      (updateGroups_ok_frame gs st₁ st₂ h2).2.1
  refine ⟨w, ?_, ?_, ?_⟩
  · exact hw
  · show lookupA _ usr.uid = some w
    rw [hID, hst₁]
    show lookupA (insertA st.userByID w.uid w) usr.uid = some w
    rw [lookupA_insertA, if_pos hwu.symm]
  · show lookupA _ usr.name = some w
    rw [hName, hst₁]
    show lookupA (insertA st.userByName w.name w) usr.name = some w
    rw [lookupA_insertA, if_pos hwn.symm]

/-! ## Broker-registry loading lemmas -/

theorem loadBrokerLoop_foldl_head (parse : String → Option Broker) :
    ∀ (cfg : List String) (acc : List String × List (String × Broker)) (x : String),
      acc.1.head? = some x → ((cfg.foldl (loadBrokerLoop parse) acc).1).head? = some x
  | [], _, _, h => h
  | n :: rest, acc, x, h => by
    rw [List.foldl_cons]
    apply loadBrokerLoop_foldl_head parse rest
    unfold loadBrokerLoop
    split
    · exact h
    · show (acc.1 ++ _).head? = some x
      rcases hacc : acc.1 with - | ⟨a, as⟩
      · rw [hacc] at h
        simp at h
      · rw [hacc] at h
        simpa using h

theorem loadBrokerLoop_foldl_local (parse : String → Option Broker) :
    ∀ (cfg : List String) (acc : List String × List (String × Broker)),
      lookupA acc.2 localBrokerName = some ⟨localBrokerName⟩ →
      lookupA ((cfg.foldl (loadBrokerLoop parse) acc).2) localBrokerName =
        some ⟨localBrokerName⟩
  | [], _, h => h
  | n :: rest, acc, h => by
    rw [List.foldl_cons]
    apply loadBrokerLoop_foldl_local parse rest
    unfold loadBrokerLoop
    split <;> rename_i b hb
    · exact h
    · show lookupA (insertA acc.2 b.id b) localBrokerName = _
      rw [lookupA_insertA]
      by_cases hid : localBrokerName = b.id
      · rw [if_pos hid]
        cases b with
        | mk bid =>
          have hid2 : localBrokerName = bid := hid
          rw [← hid2]
      · rw [if_neg hid]
        exact h

/-! ## Identity-cache claims -/

/-- C1: After every committed `UpdateUserEntry(uid, new_gids)` call,
membership is bidirectional: for every pair `(uid, gid)`, `gid` is a
member of `user_to_groups[uid].gids` if and only if `uid` is a member of
`group_to_users[gid].uids`, when read through either bucket. Stated for
every batch of committed calls starting from the fresh store. -/
theorem c1_bidirectional_membership (ops : List (UserDB × List GroupDB × Nat)) :
    Bidirectional (applyUpdates emptyCache ops) :=
  bidirectional_applyUpdates ops emptyCache bidirectional_empty

/-- C2: If `UpdateUserEntry` is called with a UID already bound to a
different user name, or with any group whose GID is already bound to a
different group name, the whole transaction aborts with
ConflictingIdentity (one of the two conflict errors): no state is
committed, so the pre-state — in which the new name is still absent and
the existing record unchanged — is what every later read sees. -/
theorem c2_conflicting_identity_aborts (st : Cache) (usr : UserDB)
    (gs : List GroupDB) (now : Nat)
    (h : UserConflict st usr ∨ ∃ g ∈ gs, GroupConflict st g) :
    ∃ e : CacheError, UpdateUserEntry st usr gs now = .error e := by
  rcases h with hu | hg
  · refine ⟨.conflictingUserUID, ?_⟩
    have h1 : updateUser st { usr with lastLogin := now } =
        .error .conflictingUserUID := updateUser_conflict_error st _ hu
    simp only [UpdateUserEntry, h1]
  · rcases h1 : updateUser st { usr with lastLogin := now } with e₁ | st₁
    · exact ⟨e₁, by simp only [UpdateUserEntry, h1]⟩
    · have hgl : ∃ g ∈ gs, GroupConflict st₁ g := by
        obtain ⟨g, hgm, hgc⟩ := hg
        exact ⟨g, hgm,
          (groupConflict_same_bucket st st₁ g (updateUser_ok_frame st _ st₁ h1).1).mpr hgc⟩
      obtain ⟨e, he⟩ := updateGroups_conflict gs st₁ hgl
      exact ⟨e, by simp only [UpdateUserEntry, h1, he]⟩

theorem c2_witness :
    (UserConflict aliceCache { aliceU with name := "bob" } ∨
      ∃ g ∈ ([⟨"users", 100⟩] : List GroupDB), GroupConflict aliceCache g) ∧
    ∃ e : CacheError, UpdateUserEntry aliceCache { aliceU with name := "bob" }
      [⟨"users", 100⟩] 3 = .error e :=
  ⟨Or.inl ⟨⟨aliceU, 1⟩, by decide, by decide, by decide⟩,
   c2_conflicting_identity_aborts aliceCache { aliceU with name := "bob" }
     [⟨"users", 100⟩] 3 (Or.inl ⟨⟨aliceU, 1⟩, by decide, by decide, by decide⟩)⟩

/-- C3: For a user whose stored record has a non-empty `home_dir H`, an
`UpdateUserEntry` carrying a different `home_dir` does not fail on that
account (the user phase commits), and on commit the stored `home_dir`
read through either user bucket is still `H`: the incoming value is
discarded. -/
theorem c3_homedir_stickiness (st : Cache) (usr : UserDB) (gs : List GroupDB)
    (now : Nat) (ex : UserRec)
    (hex : lookupA st.userByID usr.uid = some ex)
    (hname : ex.name = usr.name)
    (hdir : ex.dir ≠ "") (hdiff : usr.dir ≠ ex.dir) :
    ((updateUser st { usr with lastLogin := now }).toOption.isSome = true) ∧
    ∀ st', UpdateUserEntry st usr gs now = .ok st' →
      (UserByID st' usr.uid).map (·.dir) = some ex.dir ∧
      (UserByName st' usr.name).map (·.dir) = some ex.dir := by
  constructor
  · obtain ⟨st₁, h1⟩ := updateUser_no_conflict_ok st { usr with lastLogin := now } (by
      rw [hex]
      simp only [Option.getD_some]
      intro hcon
      exact hcon.2 hname)
    rw [h1]
    rfl
  · intro st' h
    obtain ⟨w, hw, hID, hName⟩ := UpdateUserEntry_ok_user_lookup st usr gs now st' h
    rw [hex] at hw
    simp only [Option.getD_some] at hw
    rw [if_pos ⟨hdir, fun hh => hdiff hh.symm⟩] at hw
    rw [hID, hName, hw]
    exact ⟨rfl, rfl⟩

theorem c3_witness :
    ((updateUser aliceCache { aliceTmpU with lastLogin := 2 }).toOption.isSome = true) ∧
    ∀ st', UpdateUserEntry aliceCache aliceTmpU [⟨"users", 100⟩] 2 = .ok st' →
      (UserByID st' aliceTmpU.uid).map (·.dir) = some "/home/alice" ∧
      (UserByName st' aliceTmpU.name).map (·.dir) = some "/home/alice" :=
  c3_homedir_stickiness aliceCache aliceTmpU [⟨"users", 100⟩] 2 ⟨aliceU, 1⟩
    (by decide) (by decide) (by decide) (by decide)

/-- C4: When a committed `UpdateUserEntry` shrinks the user's group set,
for every GID in the old list but not in the new one the UID is removed
from `group_to_users[gid]`, the GroupUsersEdge still persists (possibly
with an empty set), and `group_by_id[gid]` is untouched, so the group
record is not deleted. -/
theorem c4_group_shrink (st : Cache) (usr : UserDB) (gs : List GroupDB)
    (now : Nat) (st' : Cache) (gid : Nat)
    (h : UpdateUserEntry st usr gs now = .ok st')
    (hold : gid ∈ ((lookupA st.userToGroups usr.uid).getD ⟨0, []⟩).gids)
    (hnew : gid ∉ gs.map (·.gid)) :
    ((lookupA st'.groupToUsers gid).isSome = true ∧
      ¬ groupHasUser st' gid usr.uid) ∧
    GroupByID st' gid = GroupByID st gid := by
  obtain ⟨st₁, st₂, h1, h2, rfl⟩ := UpdateUserEntry_ok_elim st usr gs now st' h
  refine ⟨⟨?_, ?_⟩, ?_⟩
  · simp only [updateUsersAndGroups]
    exact lookupGTU_removeFromOldGroups_removed usr.uid (gs.map (·.gid)) _ _ gid hold hnew
  · rw [groupHasUser_updateUsersAndGroups]
    rintro ⟨-, hcon⟩
    exact hcon ⟨rfl, hold, hnew⟩
  · show lookupA _ gid = lookupA st.groupByID gid
    rw [(updateUsersAndGroups_frame st₂ _ _ _).2.2.1,
      updateGroups_ok_untouched_gid gs st₁ st₂ h2 gid hnew,
      (updateUser_ok_frame st _ st₁ h1).1]

theorem c4_witness :
    ((lookupA aliceSecondPost.groupToUsers 2000).isSome = true ∧
      ¬ groupHasUser aliceSecondPost 2000 aliceTmpU.uid) ∧
    GroupByID aliceSecondPost 2000 = GroupByID aliceCache 2000 :=
  c4_group_shrink aliceCache aliceTmpU [⟨"users", 100⟩] 2 aliceSecondPost 2000
    rfl (by decide) (by decide)

/-- C5 counterexample: after inserting `alice` with homedir
`/home/alice`, a successful re-update carrying homedir `/tmp/x` commits,
yet both `UserByName` and `UserByID` return a record whose `dir` is still
`/home/alice`, differing from the submitted record in a field other than
`last_login`. So the round-trip claim fails as stated. -/
theorem c5_counterexample :
    aliceSecond.toOption.isSome = true ∧
    (aliceSecond.toOption.bind fun s => UserByName s aliceTmpU.name).map (·.dir) =
      some "/home/alice" ∧
    (aliceSecond.toOption.bind fun s => UserByID s aliceTmpU.uid).map (·.dir) =
      some "/home/alice" ∧
    aliceTmpU.dir = "/tmp/x" := by decide

/-- C5 (amended): after a successful `UpdateUserEntry(u, gs)`, provided
the previously stored record for `u.uid` (if any) has an empty `home_dir`
or one equal to `u`'s, both `UserByName(u.name)` and `UserByID(u.uid)`
return records equal to `u` in every field except `last_login`, which is
set to the time of the call. (Without the proviso, home-directory
stickiness preserves the old `home_dir`, as the counterexample shows.) -/
theorem c5_roundtrip_modulo_lastlogin (st : Cache) (usr : UserDB)
    (gs : List GroupDB) (now : Nat) (st' : Cache)
    (hdir : ∀ ex, lookupA st.userByID usr.uid = some ex →
      ex.dir = "" ∨ ex.dir = usr.dir)
    (h : UpdateUserEntry st usr gs now = .ok st') :
    UserByName st' usr.name = some ⟨usr, now⟩ ∧
    UserByID st' usr.uid = some ⟨usr, now⟩ := by
  obtain ⟨w, hw, hID, hName⟩ := UpdateUserEntry_ok_user_lookup st usr gs now st' h
  have hcond : ¬(((lookupA st.userByID usr.uid).getD zeroUserRec).dir ≠ "" ∧
      ((lookupA st.userByID usr.uid).getD zeroUserRec).dir ≠ usr.dir) := by
    cases hl : lookupA st.userByID usr.uid with
    | none => simp [zeroUserRec]
    | some ex =>
      rcases hdir ex hl with hd | hd <;> simp [hd]
  rw [if_neg hcond] at hw
  rw [hID, hName, hw]
  exact ⟨rfl, rfl⟩

theorem c5_witness :
    UserByName alicePost aliceU.name = some ⟨aliceU, 1⟩ ∧
    UserByID alicePost aliceU.uid = some ⟨aliceU, 1⟩ :=
  c5_roundtrip_modulo_lastlogin emptyCache aliceU [⟨"users", 100⟩, ⟨"dev", 2000⟩] 1
    alicePost
    (by intro ex hex; simp [emptyCache, lookupA] at hex)
    rfl

/-- C10: A successful `UpdateUserEntry` on an already-existing user
overwrites every stored field with the incoming value and stamps
`last_login` with the time of the call; `home_dir` is the only field that
can instead be preserved (when the stored one is non-empty and differs),
as both user buckets show. -/
theorem c10_overwrite_all_but_dir (st : Cache) (usr : UserDB) (gs : List GroupDB)
    (now : Nat) (ex : UserRec) (st' : Cache)
    (hex : lookupA st.userByID usr.uid = some ex)
    (h : UpdateUserEntry st usr gs now = .ok st') :
    UserByID st' usr.uid = some
      (if ex.dir ≠ "" ∧ ex.dir ≠ usr.dir
       then { toUserDB := { usr with dir := ex.dir }, lastLogin := now }
       else { toUserDB := usr, lastLogin := now }) ∧
    UserByName st' usr.name = some
      (if ex.dir ≠ "" ∧ ex.dir ≠ usr.dir
       then { toUserDB := { usr with dir := ex.dir }, lastLogin := now }
       else { toUserDB := usr, lastLogin := now }) := by
  obtain ⟨w, hw, hID, hName⟩ := UpdateUserEntry_ok_user_lookup st usr gs now st' h
  rw [hex] at hw
  simp only [Option.getD_some] at hw
  rw [hID, hName, hw]
  exact ⟨rfl, rfl⟩

theorem c10_witness :
    UserByID aliceSecondPost aliceTmpU.uid = some
      (if (⟨aliceU, 1⟩ : UserRec).dir ≠ "" ∧ (⟨aliceU, 1⟩ : UserRec).dir ≠ aliceTmpU.dir
       then { toUserDB := { aliceTmpU with dir := (⟨aliceU, 1⟩ : UserRec).dir }
              lastLogin := 2 }
       else { toUserDB := aliceTmpU, lastLogin := 2 }) ∧
    UserByName aliceSecondPost aliceTmpU.name = some
      (if (⟨aliceU, 1⟩ : UserRec).dir ≠ "" ∧ (⟨aliceU, 1⟩ : UserRec).dir ≠ aliceTmpU.dir
       then { toUserDB := { aliceTmpU with dir := (⟨aliceU, 1⟩ : UserRec).dir }
              lastLogin := 2 }
       else { toUserDB := aliceTmpU, lastLogin := 2 }) :=
  c10_overwrite_all_but_dir aliceCache aliceTmpU [⟨"users", 100⟩] 2 ⟨aliceU, 1⟩
    aliceSecondPost (by decide) rfl

/-! ## Broker-manager claims -/

/-- C6: `NewSession` returns an error when the broker id is unknown, and
propagates a failing broker `new_session` call; in both cases the
session index is untouched. Only when the broker call succeeds is the
returned session id recorded (mapping to that broker) and the pair
(session id, encryption key) returned to the caller. -/
theorem c6_new_session (m : Manager) (brokerID : String)
    (res : Except Unit (String × String)) :
    (lookupA m.brokers brokerID = none →
      NewSession m brokerID res = (.error (.invalidBroker brokerID), m)) ∧
    (∀ b e, lookupA m.brokers brokerID = some b → res = .error e →
      NewSession m brokerID res = (.error .brokerFailure, m)) ∧
    (∀ b sid key, lookupA m.brokers brokerID = some b → res = .ok (sid, key) →
      (NewSession m brokerID res).1 = .ok (sid, key) ∧
      lookupA (NewSession m brokerID res).2.transactionsToBroker sid = some b) := by
  refine ⟨?_, ?_, ?_⟩
  · intro hnone
    unfold NewSession brokerFromID
    rw [hnone]
  · intro b e hb he
    unfold NewSession brokerFromID
    rw [hb, he]
  · intro b sid key hb hres
    unfold NewSession brokerFromID
    rw [hb, hres]
    refine ⟨rfl, ?_⟩
    show lookupA (insertA m.transactionsToBroker sid b) sid = some b
    rw [lookupA_insertA, if_pos rfl]

theorem c6_witness :
    NewSession localOnlyMgr "nope" (.ok ("s", "k")) =
      (.error (.invalidBroker "nope"), localOnlyMgr) ∧
    NewSession localOnlyMgr localBrokerName (.error ()) =
      (.error .brokerFailure, localOnlyMgr) ∧
    ((NewSession localOnlyMgr localBrokerName (.ok ("s", "k"))).1 = .ok ("s", "k") ∧
      lookupA (NewSession localOnlyMgr localBrokerName
        (.ok ("s", "k"))).2.transactionsToBroker "s" = some ⟨localBrokerName⟩) :=
  ⟨(c6_new_session localOnlyMgr "nope" (.ok ("s", "k"))).1 (by decide),
   (c6_new_session localOnlyMgr localBrokerName (.error ())).2.1 ⟨localBrokerName⟩ ()
     (by decide) rfl,
   (c6_new_session localOnlyMgr localBrokerName (.ok ("s", "k"))).2.2 ⟨localBrokerName⟩
     "s" "k" (by decide) rfl⟩

/-- C7 counterexample: with the local broker registered, `EndSession("")`
resolves the local-broker sentinel and succeeds, yet the subsequent
`BrokerFromSessionID("")` returns the local broker rather than NotFound —
refuting the claim for the empty session id. -/
theorem c7_counterexample :
    (EndSession localOnlyMgr "" (fun _ => .ok ())).1 = .ok () ∧
    BrokerFromSessionID (EndSession localOnlyMgr "" (fun _ => .ok ())).2 "" =
      .ok ⟨localBrokerName⟩ := by decide

/-- C7 (amended): `EndSession(sid)` removes the `sid → broker` index
entry only after the broker's `end_session` call succeeds; when the
lookup or the broker call fails, the index is unchanged. After a
successful `EndSession(sid)` with a non-empty `sid`, `BrokerFromSessionID
(sid)` returns NotFound. (The empty `sid` is the local-broker sentinel,
resolved from the registry, so NotFound is impossible there, as the
counterexample shows.) -/
theorem c7_end_session (m : Manager) (sid : String)
    (endRes : Broker → Except Unit Unit) :
    (∀ e, BrokerFromSessionID m sid = .error e → (EndSession m sid endRes).2 = m) ∧
    (∀ b, BrokerFromSessionID m sid = .ok b → endRes b = .error () →
      (EndSession m sid endRes).2 = m) ∧
    (sid ≠ "" → (EndSession m sid endRes).1 = .ok () →
      BrokerFromSessionID (EndSession m sid endRes).2 sid =
        .error (.noBrokerForSession sid)) := by
  refine ⟨?_, ?_, ?_⟩
  · intro e he
    simp only [EndSession, he]
  · intro b hb hbe
    simp only [EndSession, hb, hbe]
  · intro hsid hok
    cases hB : BrokerFromSessionID m sid with
    | error e =>
      simp only [EndSession, hB] at hok
      exact absurd hok (by simp)
    | ok b =>
      cases hE : endRes b with
      | error e =>
        simp only [EndSession, hB, hE] at hok
        exact absurd hok (by simp)
      | ok u =>
        simp only [EndSession, hB, hE]
        unfold BrokerFromSessionID
        rw [if_neg hsid]
        rw [lookupA_eraseA, if_pos rfl]

theorem c7_witness :
    (EndSession sessionMgr "zz" (fun _ => .ok ())).2 = sessionMgr ∧
    (EndSession sessionMgr "sid1" (fun _ => .error ())).2 = sessionMgr ∧
    BrokerFromSessionID (EndSession sessionMgr "sid1" (fun _ => .ok ())).2 "sid1" =
      .error (.noBrokerForSession "sid1") :=
  ⟨(c7_end_session sessionMgr "zz" (fun _ => .ok ())).1
      (.noBrokerForSession "zz") (by decide),
   (c7_end_session sessionMgr "sid1" (fun _ => .error ())).2.1
      ⟨localBrokerName⟩ (by decide) rfl,
   (c7_end_session sessionMgr "sid1" (fun _ => .ok ())).2.2 (by decide) (by decide)⟩

/-- C8: For every state of the session index, `BrokerFromSessionID("")`
resolves the local broker from the registry without consulting the
session-to-broker map — even if that map holds an entry under the
empty-string key. -/
theorem c8_empty_sid_local (m : Manager) (tmap : List (String × Broker)) :
    BrokerFromSessionID { m with transactionsToBroker := tmap } "" =
      brokerFromID m localBrokerName := by
  unfold BrokerFromSessionID
  rw [if_pos rfl]
  rfl

/-- C9: For every configuration input (any list of configured broker
names and any parse outcome), `NewManager` registers the in-process local
broker, the first element of `AvailableBrokers()` is the local broker,
and a broker whose configuration does not parse is skipped without
affecting construction at all. -/
theorem c9_local_broker_first (cfg : List String) (parse : String → Option Broker)
    (n : String) (pre post : List String) :
    lookupA (NewManager cfg parse).brokers localBrokerName = some ⟨localBrokerName⟩ ∧
    (AvailableBrokers (NewManager cfg parse)).head? = some (some ⟨localBrokerName⟩) ∧
    (parse n = none →
      NewManager (pre ++ n :: post) parse = NewManager (pre ++ post) parse) := by
  have hl : lookupA (NewManager cfg parse).brokers localBrokerName =
      some ⟨localBrokerName⟩ := by
    show lookupA ((cfg.foldl (loadBrokerLoop parse) _).2) localBrokerName = _
    apply loadBrokerLoop_foldl_local
    show lookupA [(localBrokerName, Broker.mk localBrokerName)] localBrokerName = _
    rw [lookupA, if_pos rfl]
  have ho : (NewManager cfg parse).brokersOrder.head? = some localBrokerName := by
    show ((cfg.foldl (loadBrokerLoop parse) _).1).head? = _
    apply loadBrokerLoop_foldl_head
    rfl
  refine ⟨hl, ?_, ?_⟩
  · unfold AvailableBrokers
    cases hoo : (NewManager cfg parse).brokersOrder with
    | nil =>
      rw [hoo] at ho
      exact absurd ho (by simp)
    | cons a as =>
      rw [hoo] at ho
      have ha : a = localBrokerName := by simpa using ho
      rw [List.map_cons]
      simp only [List.head?_cons, Option.some.injEq]
      rw [ha]
      exact hl
  · intro hskip
    simp only [NewManager]
    rw [List.foldl_append, List.foldl_append, List.foldl_cons]
    have hstep : ∀ acc, loadBrokerLoop parse acc n = acc := by
      intro acc
      unfold loadBrokerLoop
      rw [hskip]
    rw [hstep]

theorem c9_witness :
    lookupA (NewManager ["bad"] (fun _ => none)).brokers localBrokerName =
      some ⟨localBrokerName⟩ ∧
    (AvailableBrokers (NewManager ["bad"] (fun _ => none))).head? =
      some (some ⟨localBrokerName⟩) ∧
    NewManager (["x"] ++ "bad" :: ["y"]) (fun _ => none) =
      NewManager (["x"] ++ ["y"]) (fun _ => none) := by
  have h := c9_local_broker_first ["bad"] (fun _ => none) "bad" ["x"] ["y"]
  exact ⟨h.1, h.2.1, h.2.2 rfl⟩

end Authd
